import Mathlib

/-!
Verification of the JSON-subset value extractor and the fixed-cadence
scheduling loop of `clock-weather.cc` (repository Bmitchem/weathermatrix).

Strings are modelled as `List Char`.  `findPat s pat` models
`std::string::find` (first index at which `pat` occurs in `s`, `none` when
absent); `s.find(pat, pos)` is modelled as `(findPat (s.drop pos) pat).map
(· + pos)`, which yields the same absolute index.  All definitions are
translated line by line from the C++ source; the only abstractions are the
numeric conversions `atof`/`atol` (C floating-point parsing), which are taken
as parameters, and the network transport, which is represented by its
observable outcome.
-/

/-- Character strings, modelled as lists of characters. -/
abbrev Str := List Char

/-- Model of `std::string::find` for a pattern: index of the first occurrence
of `pat` in `s`, or `none`.  (For the empty pattern this is `some 0`, exactly
as `std::string::find("")` returns 0.) -/
def findPat (s pat : Str) : Option Nat :=
  match s with
  | [] => if pat.isPrefixOf [] then some 0 else none
  | c :: s' =>
    if pat.isPrefixOf (c :: s') then some 0
    else (findPat s' pat).map (· + 1)

/-- Model of the brace-matching scan of `extractJsonValue` (and of the
weather-array block of `fetchWeather`): starting from the character at the
scan origin, increment the depth on `\x7b`, decrement on `\x7d`, and return
`some (i + 1)` at the first index `i` (relative to the origin) where the
depth returns to zero; `none` when the loop runs off the end of the buffer
(in which case the C++ code leaves `end_pos = pos`, producing an empty
span). -/
def braceScan : Str → Int → Nat → Option Nat
  | [], _, _ => none
  | c :: rest, depth, i =>
    let d1 := if c = '{' then depth + 1 else depth
    if c = '}' then
      if d1 - 1 = 0 then some (i + 1)
      else braceScan rest (d1 - 1) (i + 1)
    else braceScan rest d1 (i + 1)

/-- The whitespace skip after the colon: advances past spaces and tabs. -/
def skipWs (s : Str) : Str := s.dropWhile (fun c => c = ' ' || c = '\t')

/-- The delimiter set that terminates a scalar token. -/
def isDelim (c : Char) : Bool :=
  c = ',' || c = '}' || c = ']' || c = ' ' || c = '\n'

/-- The scalar-token loop: accumulate characters until a delimiter. -/
def readScalar (s : Str) : Str := s.takeWhile (fun c => !isDelim c)

/-- The string-literal loop of `extractJsonValue`, applied to the characters
after the opening quote: accumulate until an unescaped quote, resolving
backslash escapes (`\n` and `\t` to control characters, any other
backslash-escaped character to itself).  A backslash as the very last
character of the buffer is appended literally, as in the C++ loop. -/
def readStringLit : Str → Str
  | [] => []
  | c :: rest =>
    if c = '"' then []
    else if c = '\\' then
      match rest with
      | [] => [c]
      | e :: rest' =>
        (if e = 'n' then '\n' else if e = 't' then '\t' else e) :: readStringLit rest'
    else c :: readStringLit rest

/-- The tail of the single-segment extraction, applied to the characters
strictly after the colon: skip horizontal whitespace, return empty at end of
buffer, otherwise read a string literal or a scalar token. -/
def afterColon (tail : Str) : Str :=
  match skipWs tail with
  | [] => []
  | c :: rest => if c = '"' then readStringLit rest else readScalar (c :: rest)

/-- The single-segment ("simple key extraction") branch of
`extractJsonValue`: find the quoted key, find the colon after it, then run
`afterColon` on the remainder. -/
def extractSingle (json key : Str) : Str :=
  match findPat json ('"' :: (key ++ ['"'])) with
  | none => []
  | some p =>
    match findPat (json.drop p) [':'] with
    | none => []
    | some q => afterColon (json.drop (p + q + 1))

/-- Fuelled body of `extractJsonValue`.  The C++ function recurses on the
rest of the key after the first dot, which is strictly shorter than the key;
`key.length + 1` units of fuel therefore always suffice (each recursive step
removes at least one character of the key and consumes one unit), so the
fuel-exhaustion branch is unreachable from `extractJsonValue`. -/
def extractAux : Nat → Str → Str → Str
  | 0, _, _ => []
  | fuel + 1, json, key =>
    match findPat key ['.'] with
    | some dot =>
      let parent := key.take dot
      let child := key.drop (dot + 1)
      match findPat json ('"' :: (parent ++ ['"'])) with
      | none => []
      | some p =>
        match findPat (json.drop p) ['{'] with
        | none => []
        | some b =>
          let span :=
            match braceScan (json.drop (p + b)) 0 0 with
            | some n => (json.drop (p + b)).take n
            | none => []
          extractAux fuel span child
    | none => extractSingle json key

/-- Model of `extractJsonValue(json, key)`: dotted-path JSON value
extraction. -/
def extractJsonValue (json key : Str) : Str :=
  extractAux (key.length + 1) json key


/-- The `WeatherData` record of the C++ program.  The `float` fields are
modelled as rationals; the program only ever stores into them the result of
the (parameterized) numeric conversion or leaves the constructor default. -/
structure WeatherData where
  temp : Rat
  feels_like : Rat
  humidity : Rat
  wind_speed : Rat
  condition_main : Str
  condition_description : Str
  timestamp : Int
  valid : Bool
deriving DecidableEq

/-- The `WeatherData` default constructor: zeros, `"Unknown"`, empty
description, timestamp 0, `valid = false`. -/
def WeatherData.init : WeatherData :=
  { temp := 0, feels_like := 0, humidity := 0, wind_speed := 0,
    condition_main := ("Unknown".data), condition_description := [],
    timestamp := 0, valid := false }

/-- The weather-array block of `fetchWeather`: find the quoted `weather` key,
the next `[`, the next opening brace (first array element), and take the
brace-balanced span from there.  Returns `none` when key, bracket or brace is
missing (the C++ code then leaves the condition fields untouched); returns
`some []` when the brace scan never closes (the C++ code then builds an empty
substring and extracts from it). -/
def weatherFirstSpan (response : Str) : Option Str :=
  match findPat response ('"' :: ("weather".data ++ ['"'])) with
  | none => none
  | some ws =>
    match findPat (response.drop ws) ['['] with
    | none => none
    | some a =>
      match findPat (response.drop (ws + a)) ['{'] with
      | none => none
      | some o =>
        some (match braceScan (response.drop (ws + a + o)) 0 0 with
              | some n => (response.drop (ws + a + o)).take n
              | none => [])

/-- Observable outcome of the curl transport in `fetchWeather`: failure to
initialize, failure of `curl_easy_perform`, or a completed request with a
status code and a response body. -/
inductive TransportResult where
  | curlInitFail : TransportResult
  | performFail : TransportResult
  | ok : Int → Str → TransportResult

/-- The response-parsing tail of `fetchWeather` (everything after the
HTTP-status check): extract each field by key path, assign the condition
fields from the first weather-array object when one is found, convert
nonempty numeric strings with `atof`/`atol` (taken as parameters, since C
floating-point parsing is outside the model), leave empty ones at the
constructor defaults, and mark the record valid. -/
def assembleWeather (atof : Str → Rat) (atol : Str → Int) (response : Str) :
    WeatherData :=
  let temp_str := extractJsonValue response ("main.temp".data)
  let feels_str := extractJsonValue response ("main.feels_like".data)
  let humidity_str := extractJsonValue response ("main.humidity".data)
  let cond :=
    match weatherFirstSpan response with
    | some obj =>
      (extractJsonValue obj ("main".data), extractJsonValue obj ("description".data))
    | none => (WeatherData.init.condition_main, WeatherData.init.condition_description)
  let wind_str := extractJsonValue response ("wind.speed".data)
  let dt_str := extractJsonValue response ("dt".data)
  { temp := if temp_str ≠ [] then atof temp_str else WeatherData.init.temp,
    feels_like := if feels_str ≠ [] then atof feels_str else WeatherData.init.feels_like,
    humidity := if humidity_str ≠ [] then atof humidity_str else WeatherData.init.humidity,
    wind_speed := if wind_str ≠ [] then atof wind_str else WeatherData.init.wind_speed,
    condition_main := cond.1,
    condition_description := cond.2,
    timestamp := if dt_str ≠ [] then atol dt_str else WeatherData.init.timestamp,
    valid := true }

/-- Model of `fetchWeather`: on any transport failure or non-200 status the
default-constructed (invalid) record is returned; otherwise the body is
parsed by `assembleWeather`. -/
def fetchWeather (atof : Str → Rat) (atol : Str → Int) (t : TransportResult) :
    WeatherData :=
  match t with
  | .curlInitFail => WeatherData.init
  | .performFail => WeatherData.init
  | .ok code body => if code ≠ 200 then WeatherData.init else assembleWeather atof atol body

/-- The per-iteration state of the main loop: the absolute deadline
`next_time.tv_sec`, the `last_weather_fetch` timestamp, and the cached
`current_weather` record. -/
structure LoopState where
  next_sec : Int
  last_fetch : Int
  weather : WeatherData
deriving DecidableEq

/-- One iteration of the main loop, given the record the call to
`fetchWeather` would return this iteration.  Mirrors lines 465-531 of the
source: if `next_time.tv_sec - last_weather_fetch >= weather_refresh`, the
fetch runs, its result overwrites `current_weather`, and the attempt time is
recorded; the deadline then advances by exactly one second.  The second
component counts how many times `fetchWeather` was invoked during the
iteration. -/
def tick (refresh : Int) (fetchResult : WeatherData) (s : LoopState) :
    LoopState × Nat :=
  if s.next_sec - s.last_fetch ≥ refresh then
    ({ next_sec := s.next_sec + 1, last_fetch := s.next_sec, weather := fetchResult }, 1)
  else
    ({ next_sec := s.next_sec + 1, last_fetch := s.last_fetch, weather := s.weather }, 0)

/-- A run of consecutive loop iterations.  Each input supplies the record the
fetch would return and the duration of that iteration's rendering and
refreshing work; `now` tracks wall-clock time across the absolute-deadline
wait (`clock_nanosleep` with `TIMER_ABSTIME` returns at
`max (now + work) deadline`).  Returns the final state and the list of
absolute deadline values waited on, in order. -/
def runLoop (refresh : Int) :
    List (WeatherData × Int) → Int → LoopState → LoopState × List Int
  | [], _, s => (s, [])
  | (f, dur) :: rest, now, s =>
    let stepped := tick refresh f s
    let afterWait := max (now + dur) s.next_sec
    let result := runLoop refresh rest afterWait stepped.1
    (result.1, s.next_sec :: result.2)

/-- One item of a raw string-literal body: either a plain character or a
two-character backslash escape. -/
inductive LitTok where
  | plain : Char → LitTok
  | esc : Char → LitTok
deriving DecidableEq

/-- The raw characters an item contributes to the buffer. -/
def LitTok.raw : LitTok → Str
  | .plain c => [c]
  | .esc c => ['\\', c]

/-- The character an item decodes to under the extractor's escape table. -/
def LitTok.decode : LitTok → Char
  | .plain c => c
  | .esc c => if c = 'n' then '\n' else if c = 't' then '\t' else c

/-- A plain item must not be a quote (which would terminate the literal) or a
backslash (which would start an escape). -/
def goodTok : LitTok → Bool
  | .plain c => !(c == '"') && !(c == '\\')
  | .esc _ => true

/-- Raw text of a whole literal body. -/
def rawLit : List LitTok → Str
  | [] => []
  | t :: ts => t.raw ++ rawLit ts

/-- Decoded text of a whole literal body. -/
def decodeLit (ts : List LitTok) : Str := ts.map LitTok.decode

/-- A buffer containing a single-segment key occurrence: an arbitrary prelude,
the quoted key, the colon, and the rest of the buffer. -/
def singleKeyBuffer (pre key tail : Str) : Str :=
  pre ++ ('"' :: (key ++ ['"'])) ++ ':' :: tail

/-- A valid cached record: the default record with `valid` set, standing for
the result of an earlier successful refresh. -/
def okW : WeatherData := { WeatherData.init with valid := true }

/-- Boolean prefix test agrees with the prefix relation. -/
theorem isPrefixOf_eq (l1 l2 : Str) : l1.isPrefixOf l2 = true ↔ l1 <+: l2 := by
  simp

/-- Characterization of `findPat`: it returns `some i` exactly when the
pattern occurs at `i` and at no earlier index. -/
theorem findPat_some_iff (pat : Str) :
    ∀ (s : Str) (i : Nat),
      findPat s pat = some i ↔ (pat <+: s.drop i ∧ ∀ j, j < i → ¬ pat <+: s.drop j) := by
  intro s
  induction s with
  | nil =>
    intro i
    simp only [findPat, List.drop_nil]
    by_cases hp : pat.isPrefixOf ([] : Str)
    · rw [if_pos hp]
      rw [isPrefixOf_eq] at hp
      constructor
      · rintro ⟨rfl⟩
        exact ⟨hp, fun j hj => absurd hj (Nat.not_lt_zero j)⟩
      · rintro ⟨-, h2⟩
        rcases Nat.eq_zero_or_pos i with rfl | hpos
        · rfl
        · exact absurd hp (h2 0 hpos)
    · rw [if_neg hp]
      rw [isPrefixOf_eq] at hp
      constructor
      · intro h; exact absurd h (by simp)
      · rintro ⟨h1, -⟩; exact absurd h1 hp
  | cons c s' ih =>
    intro i
    simp only [findPat]
    by_cases hp : pat.isPrefixOf (c :: s')
    · rw [if_pos hp]
      rw [isPrefixOf_eq] at hp
      constructor
      · rintro ⟨rfl⟩
        exact ⟨hp, fun j hj => absurd hj (Nat.not_lt_zero j)⟩
      · rintro ⟨-, h2⟩
        rcases Nat.eq_zero_or_pos i with rfl | hpos
        · rfl
        · exact absurd hp (h2 0 hpos)
    · rw [if_neg hp]
      rw [isPrefixOf_eq] at hp
      cases i with
      | zero =>
        constructor
        · intro h
          rcases Option.map_eq_some'.mp h with ⟨a, -, ha⟩
          exact absurd ha (by omega)
        · rintro ⟨h1, -⟩
          exact absurd h1 hp
      | succ i' =>
        constructor
        · intro h
          rcases Option.map_eq_some'.mp h with ⟨a, hfind, ha⟩
          have hai : a = i' := by omega
          rw [hai] at hfind
          rcases (ih i').mp hfind with ⟨h1, h2⟩
          refine ⟨by simpa using h1, ?_⟩
          intro j hj
          cases j with
          | zero => simpa using hp
          | succ j' => simpa using h2 j' (by omega)
        · rintro ⟨h1, h2⟩
          have hfind : findPat s' pat = some i' := by
            refine (ih i').mpr ⟨by simpa using h1, ?_⟩
            intro j hj
            have := h2 (j + 1) (by omega)
            simpa using this
          rw [hfind]
          rfl

/-- If the pattern occurs at index `pre.length` (as the explicit middle of an
append) and nowhere earlier, `findPat` returns exactly that index. -/
theorem findPat_first_occurrence (pre pat rest : Str)
    (h : ∀ j, j < pre.length → ¬ pat <+: (pre ++ pat ++ rest).drop j) :
    findPat (pre ++ pat ++ rest) pat = some pre.length := by
  refine (findPat_some_iff pat _ _).mpr ⟨?_, h⟩
  rw [List.append_assoc, List.drop_left]
  exact ⟨rest, rfl⟩

/-- Finding a single character that is absent from a leading chunk and present
right after it returns the chunk's length. -/
theorem findPat_singleton_boundary (ch : Char) (chunk rest : Str)
    (h : ∀ c ∈ chunk, c ≠ ch) :
    findPat (chunk ++ ch :: rest) [ch] = some chunk.length := by
  induction chunk with
  | nil =>
    simp only [List.nil_append, findPat, List.isPrefixOf, List.length_nil]
    rw [if_pos (by simp)]
  | cons c t ih =>
    have hc : c ≠ ch := h c (List.mem_cons_self c t)
    simp only [List.cons_append, findPat]
    rw [if_neg (by simp [List.cons_prefix_cons]; intro h'; exact absurd h'.symm hc)]
    simp only [List.append_eq]
    rw [ih (fun x hx => h x (List.mem_cons_of_mem c hx))]
    rfl

/-- A character absent from `s` is never found. -/
theorem findPat_singleton_none (ch : Char) (s : Str) (h : ch ∉ s) :
    findPat s [ch] = none := by
  induction s with
  | nil => rfl
  | cons c t ih =>
    have hc : ch ≠ c := fun he => h (he ▸ List.mem_cons_self c t)
    simp only [findPat]
    rw [if_neg (by simp [List.cons_prefix_cons]; exact fun h' => absurd h' hc)]
    rw [ih (fun hm => h (List.mem_cons_of_mem c hm))]
    rfl

/-- A nonempty pattern is never found in the empty buffer. -/
theorem findPat_nil_of_ne (pat : Str) (h : pat ≠ []) : findPat [] pat = none := by
  cases pat with
  | nil => exact absurd rfl h
  | cons a as => rfl

/-- The string-literal loop consumes exactly the raw body up to the closing
quote and produces the decoded body. -/
theorem readStringLit_rawLit (ts : List LitTok) (rest : Str)
    (h : ∀ t ∈ ts, goodTok t = true) :
    readStringLit (rawLit ts ++ '"' :: rest) = decodeLit ts := by
  induction ts with
  | nil =>
    show readStringLit ('"' :: rest) = decodeLit []
    rw [readStringLit.eq_def]
    simp [decodeLit]
  | cons t ts ih =>
    have ht := h t (List.mem_cons_self t ts)
    have hts := fun x hx => h x (List.mem_cons_of_mem t hx)
    cases t with
    | plain c =>
      simp only [goodTok, Bool.and_eq_true, Bool.not_eq_true'] at ht
      have hc1 : c ≠ '"' := by simpa using ht.1
      have hc2 : c ≠ '\\' := by simpa using ht.2
      show readStringLit (c :: (rawLit ts ++ '"' :: rest))
          = LitTok.decode (LitTok.plain c) :: decodeLit ts
      rw [readStringLit.eq_def]
      simp [hc1, hc2, ih hts, LitTok.decode]
    | esc e =>
      simp [rawLit, LitTok.raw, readStringLit, decodeLit, LitTok.decode, ih hts]

/-- Dropping leading characters that satisfy the predicate stops exactly at
the first character that does not. -/
theorem dropWhile_boundary (p : Char → Bool) (sp : Str) (c : Char) (rest : Str)
    (hsp : ∀ x ∈ sp, p x = true) (hc : p c = false) :
    (sp ++ c :: rest).dropWhile p = c :: rest := by
  induction sp with
  | nil => simp [List.dropWhile, hc]
  | cons x t ih =>
    have hx := hsp x (List.mem_cons_self x t)
    simp only [List.cons_append, List.dropWhile, hx]
    exact ih (fun y hy => hsp y (List.mem_cons_of_mem x hy))

/-- Taking leading characters that satisfy the predicate stops exactly at the
first character that does not. -/
theorem takeWhile_boundary (p : Char → Bool) (v : Str) (d : Char) (rest : Str)
    (hv : ∀ x ∈ v, p x = true) (hd : p d = false) :
    (v ++ d :: rest).takeWhile p = v := by
  induction v with
  | nil => simp [List.takeWhile, hd]
  | cons x t ih =>
    have hx := hv x (List.mem_cons_self x t)
    simp only [List.cons_append, List.takeWhile, hx]
    simp only [List.append_eq]
    rw [ih (fun y hy => hv y (List.mem_cons_of_mem x hy))]

/-- Extraction from the empty buffer yields the empty result, whatever the
key and fuel. -/
theorem extractAux_nil (fuel : Nat) (key : Str) : extractAux fuel [] key = [] := by
  cases fuel with
  | zero => rfl
  | succ n =>
    cases hdot : findPat key ['.'] with
    | some dot =>
      simp [extractAux, hdot, findPat_nil_of_ne]
    | none =>
      simp [extractAux, hdot, extractSingle, findPat_nil_of_ne]

/-- On a dot-free key, `extractJsonValue` is the single-segment branch. -/
theorem extractJsonValue_no_dot (json key : Str) (h : '.' ∉ key) :
    extractJsonValue json key = extractSingle json key := by
  unfold extractJsonValue
  simp only [extractAux]
  rw [findPat_singleton_none '.' key h]

/-- Single-segment extraction on a decomposed buffer reduces to `afterColon`
on the characters after the colon, provided the quoted-key pattern occurs
nowhere before its displayed position and the key contains no colon. -/
theorem extractSingle_decomposed (pre key tail : Str)
    (hcolon : ':' ∉ key)
    (hpre : ∀ j, j < pre.length →
      ¬ ('"' :: (key ++ ['"'])) <+: (singleKeyBuffer pre key tail).drop j) :
    extractSingle (singleKeyBuffer pre key tail) key = afterColon tail := by
  have hfind : findPat (singleKeyBuffer pre key tail) ('"' :: (key ++ ['"']))
      = some pre.length := findPat_first_occurrence pre _ _ hpre
  have hdrop1 : (singleKeyBuffer pre key tail).drop pre.length
      = ('"' :: (key ++ ['"'])) ++ ':' :: tail := by
    unfold singleKeyBuffer
    rw [List.append_assoc]
    exact List.drop_left pre _
  have hch : ∀ c ∈ ('"' :: (key ++ ['"'])), c ≠ ':' := by
    intro c hcmem
    rcases List.mem_cons.mp hcmem with rfl | hc2
    · decide
    · rcases List.mem_append.mp hc2 with hk | hq
      · exact fun he => hcolon (he ▸ hk)
      · rw [List.mem_singleton.mp hq]
        decide
  have hcfind : findPat (('"' :: (key ++ ['"'])) ++ ':' :: tail) [':']
      = some (key.length + 2) := by
    have := findPat_singleton_boundary ':' ('"' :: (key ++ ['"'])) tail hch
    simpa using this
  have hdrop2 : (singleKeyBuffer pre key tail).drop (pre.length + (key.length + 2) + 1)
      = tail := by
    have hB : singleKeyBuffer pre key tail
        = ((pre ++ ('"' :: (key ++ ['"']))) ++ [':']) ++ tail := by
      simp [singleKeyBuffer]
    rw [hB]
    exact List.drop_left' (by simp; omega)
  simp only [extractSingle, hfind, hdrop1, hcfind, hdrop2]

/-- C3: for every buffer in which a single-segment key's value is a quoted
string literal (decomposed as: any prelude in which the quoted-key pattern
does not occur, the quoted key, a colon, horizontal whitespace, and the
quoted literal body given as plain/escape items), `extractJsonValue` returns
the decoded contents: `\n` and `\t` become the newline and tab characters,
any other escaped character becomes that character itself (see
`LitTok.decode`), and each escape contributes exactly its decoded character,
so no resolved escape leaves a literal backslash in the result. -/
theorem extract_string_decodes_escapes
    (pre key sp post : Str) (ts : List LitTok)
    (hdot : '.' ∉ key) (hcolon : ':' ∉ key)
    (hsp : ∀ c ∈ sp, c = ' ' ∨ c = '\t')
    (hts : ∀ t ∈ ts, goodTok t = true)
    (hpre : ∀ j, j < pre.length →
      ¬ ('"' :: (key ++ ['"'])) <+:
        (singleKeyBuffer pre key (sp ++ '"' :: (rawLit ts ++ '"' :: post))).drop j) :
    extractJsonValue (singleKeyBuffer pre key (sp ++ '"' :: (rawLit ts ++ '"' :: post))) key
      = decodeLit ts := by
  rw [extractJsonValue_no_dot _ _ hdot]
  rw [extractSingle_decomposed pre key _ hcolon hpre]
  have hskip : skipWs (sp ++ '"' :: (rawLit ts ++ '"' :: post))
      = '"' :: (rawLit ts ++ '"' :: post) := by
    apply dropWhile_boundary
    · intro x hx
      rcases hsp x hx with rfl | rfl <;> decide
    · decide
  simp only [afterColon, hskip, if_true]
  exact readStringLit_rawLit ts post hts

/-- C3 witness: the spec's example.  The buffer is
`\x7b"k":"a\nb"\x7d` (with a two-character `\n` escape in the source text);
extraction of key `k` yields the three characters `a`, newline, `b`. -/
theorem extract_string_decodes_escapes_witness :
    extractJsonValue
        (singleKeyBuffer ['{'] ['k']
          ([] ++ '"' :: (rawLit [LitTok.plain 'a', LitTok.esc 'n', LitTok.plain 'b']
            ++ '"' :: ['}'])))
        ['k']
      = decodeLit [LitTok.plain 'a', LitTok.esc 'n', LitTok.plain 'b'] :=
  extract_string_decodes_escapes ['{'] ['k'] [] ['}']
    [LitTok.plain 'a', LitTok.esc 'n', LitTok.plain 'b']
    (by decide) (by decide) (by decide) (by decide) (by decide)

/-- C6: for every buffer in which a single-segment key's value is a scalar
token (decomposed as: any prelude in which the quoted-key pattern does not
occur, the quoted key, a colon, horizontal whitespace, the token, and a
delimiter), `extractJsonValue` accumulates from the first
non-space/non-tab character after the colon up to the delimiter and returns
exactly that literal substring, uninterpreted and with no surrounding
whitespace. -/
theorem extract_scalar_literal_substring
    (pre key sp val post : Str) (v0 d : Char)
    (hdot : '.' ∉ key) (hcolon : ':' ∉ key)
    (hsp : ∀ c ∈ sp, c = ' ' ∨ c = '\t')
    (hv0q : v0 ≠ '"') (hv0t : v0 ≠ '\t')
    (hval : ∀ c ∈ (v0 :: val), isDelim c = false)
    (hd : isDelim d = true)
    (hpre : ∀ j, j < pre.length →
      ¬ ('"' :: (key ++ ['"'])) <+:
        (singleKeyBuffer pre key (sp ++ (v0 :: val) ++ d :: post)).drop j) :
    extractJsonValue (singleKeyBuffer pre key (sp ++ (v0 :: val) ++ d :: post)) key
      = v0 :: val := by
  rw [extractJsonValue_no_dot _ _ hdot]
  rw [extractSingle_decomposed pre key _ hcolon hpre]
  have hv0sp : v0 ≠ ' ' := by
    intro he
    have := hval v0 (List.mem_cons_self v0 val)
    rw [he] at this
    exact absurd this (by decide)
  have hskip : skipWs (sp ++ (v0 :: val) ++ d :: post)
      = v0 :: (val ++ d :: post) := by
    have hshape : sp ++ (v0 :: val) ++ d :: post = sp ++ v0 :: (val ++ d :: post) := by
      simp
    rw [hshape]
    apply dropWhile_boundary
    · intro x hx
      rcases hsp x hx with rfl | rfl <;> decide
    · simp [hv0sp, hv0t]
  simp only [afterColon, hskip]
  rw [if_neg hv0q]
  show readScalar ((v0 :: val) ++ d :: post) = v0 :: val
  unfold readScalar
  apply takeWhile_boundary
  · intro x hx
    simp [hval x hx]
  · simp [hd]

/-- C6 witness: extracting key `temp` from the buffer
`\x7b"temp": 21.5\x7d` (one space after the colon) yields exactly `21.5`. -/
theorem extract_scalar_literal_substring_witness :
    extractJsonValue
        (singleKeyBuffer ['{'] ("temp".data)
          ([' '] ++ ('2' :: "1.5".data) ++ '}' :: []))
        ("temp".data)
      = '2' :: "1.5".data :=
  extract_scalar_literal_substring ['{'] ("temp".data) [' '] ("1.5".data) [] '2' '}'
    (by decide) (by decide) (by decide) (by decide) (by decide) (by decide) (by decide)
    (by decide)

/-- C4: the two-segment path `main.temp` extracts `21.5` from
`\x7b"main":\x7b"temp":21.5,"humidity":60\x7d\x7d` and yields the absent
(empty) result on `\x7b"other":\x7b"temp":1\x7d\x7d`. -/
theorem extract_two_segment_examples :
    extractJsonValue ("\x7b\"main\":\x7b\"temp\":21.5,\"humidity\":60\x7d\x7d".data)
        ("main.temp".data) = "21.5".data ∧
    extractJsonValue ("\x7b\"other\":\x7b\"temp\":1\x7d\x7d".data)
        ("main.temp".data) = [] := by
  decide

/-- C5: on a multi-segment path whose parent object span never closes (the
brace scan runs off the end of the buffer without the depth returning to
zero), extraction returns the absent (empty) result, never a truncated
partial span: the C++ code then takes a zero-length substring, and
extraction from the empty buffer is empty. -/
theorem extract_unbalanced_braces_absent
    (json key : Str) (dot p b : Nat)
    (hdot : findPat key ['.'] = some dot)
    (hp : findPat json ('"' :: (key.take dot ++ ['"'])) = some p)
    (hb : findPat (json.drop p) ['{'] = some b)
    (hscan : braceScan (json.drop (p + b)) 0 0 = none) :
    extractJsonValue json key = [] := by
  unfold extractJsonValue
  simp only [extractAux, hdot, hp, hb, hscan]
  exact extractAux_nil _ _

/-- C5 witness: the truncated buffer `\x7b"main":\x7b"temp":1` has an
unclosed parent span for the path `main.temp`, and extraction is empty. -/
theorem extract_unbalanced_braces_absent_witness :
    findPat ("main.temp".data) ['.'] = some 4 ∧
    braceScan (("\x7b\"main\":\x7b\"temp\":1".data).drop (1 + 7)) 0 0 = none ∧
    extractJsonValue ("\x7b\"main\":\x7b\"temp\":1".data) ("main.temp".data) = [] :=
  ⟨by decide, by decide,
    extract_unbalanced_braces_absent ("\x7b\"main\":\x7b\"temp\":1".data)
      ("main.temp".data) 4 1 7 (by decide) (by decide) (by decide) (by decide)⟩

/-- C7: the array-first-element path of `fetchWeather` — quoted `weather`
key, next `[`, next opening brace, brace-balanced span, then single-segment
extraction inside the span — yields `Clouds` on the spec's example body. -/
theorem weather_array_first_element :
    weatherFirstSpan
        ("\x7b\"weather\":[\x7b\"main\":\"Clouds\",\"description\":\"overcast\"\x7d]\x7d".data)
      = some ("\x7b\"main\":\"Clouds\",\"description\":\"overcast\"\x7d".data) ∧
    (assembleWeather (fun _ => 0) (fun _ => 0)
        ("\x7b\"weather\":[\x7b\"main\":\"Clouds\",\"description\":\"overcast\"\x7d]\x7d".data)).condition_main
      = "Clouds".data := by
  decide

/-- C9: extraction is deterministic and stateless: it is a pure function of
the buffer and the key path alone (the C++ function reads only its two const
arguments and locals, so its model takes no other state), and two calls with
the same arguments give identical results while the buffer is immutable by
construction. -/
theorem extract_idempotent (json key : Str) :
    extractJsonValue json key = extractJsonValue json key := rfl

/-- C1 counterexample: a refresh attempt in which `fetchWeather` fails
(transport failure, returning the default invalid record) does not leave the
cached record unchanged — the valid cached record is overwritten by the
invalid default, because line 471 assigns the fetch result unconditionally. -/
theorem failed_refresh_clobbers_cache :
    (fetchWeather (fun _ => 0) (fun _ => 0) TransportResult.performFail).valid = false ∧
    ((10 : Int) - 0 ≥ 10) ∧
    (tick 10 (fetchWeather (fun _ => 0) (fun _ => 0) TransportResult.performFail)
        { next_sec := 10, last_fetch := 0, weather := okW }).1.weather ≠ okW := by
  decide

/-- C1 amended: in a tick whose refresh attempt is due and fails, the cached
record is replaced by the (invalid) record the fetch returned, the attempt
time is recorded in `last_fetch`, and the deadline still advances by exactly
one second, so subsequent ticks keep the cadence. -/
theorem tick_failed_fetch_replaces_cache (refresh : Int) (f : WeatherData)
    (s : LoopState) (_hfail : f.valid = false)
    (hdue : s.next_sec - s.last_fetch ≥ refresh) :
    (tick refresh f s).1.weather = f ∧
    (tick refresh f s).1.last_fetch = s.next_sec ∧
    (tick refresh f s).1.next_sec = s.next_sec + 1 := by
  unfold tick
  rw [if_pos hdue]
  exact ⟨rfl, rfl, rfl⟩

/-- Witness for the amended C1, at the same concrete inputs as the
counterexample. -/
theorem tick_failed_fetch_replaces_cache_witness :
    (tick 10 WeatherData.init
        { next_sec := 10, last_fetch := 0, weather := okW }).1.weather = WeatherData.init ∧
    (tick 10 WeatherData.init
        { next_sec := 10, last_fetch := 0, weather := okW }).1.last_fetch = 10 ∧
    (tick 10 WeatherData.init
        { next_sec := 10, last_fetch := 0, weather := okW }).1.next_sec = 10 + 1 :=
  tick_failed_fetch_replaces_cache 10 WeatherData.init
    { next_sec := 10, last_fetch := 0, weather := okW } (by decide) (by decide)

/-- C2: across any run of consecutive iterations starting at deadline
`start`, the absolute deadlines waited on are exactly `start, start + 1, …`,
one per iteration, and the deadline after the run is `start + N` — whatever
the per-iteration work durations and fetch results were. -/
theorem deadline_sequence_no_drift (refresh : Int) (inputs : List (WeatherData × Int))
    (now : Int) (s : LoopState) :
    (runLoop refresh inputs now s).2
        = (List.range inputs.length).map (fun i : Nat => s.next_sec + (i : Int)) ∧
    (runLoop refresh inputs now s).1.next_sec = s.next_sec + inputs.length := by
  induction inputs generalizing now s with
  | nil => simp [runLoop]
  | cons fd rest ih =>
    obtain ⟨f, dur⟩ := fd
    have htick : (tick refresh f s).1.next_sec = s.next_sec + 1 := by
      unfold tick
      split <;> rfl
    obtain ⟨ih1, ih2⟩ := ih (max (now + dur) s.next_sec) (tick refresh f s).1
    constructor
    · simp only [runLoop, ih1, htick, List.length_cons, List.range_succ_eq_map,
        List.map_cons, List.map_map]
      congr 1
      · push_cast
        ring
      · apply List.map_congr_left
        intro a ha
        simp only [Function.comp_apply]
        push_cast
        ring
    · simp only [runLoop, ih2, htick, List.length_cons]
      push_cast
      ring

/-- C8 counterexample: the refresh gate compares against the last *attempt*
time, not the last *successful* refresh.  Start from a state recording a
successful refresh at time 0 (valid cached record, `last_fetch = 0`),
interval 2: at deadline 2 a refresh runs and fails; at the next tick the
elapsed time since the last successful refresh (time 0) is at least the
interval, yet no refresh is invoked. -/
theorem refresh_gate_counterexample :
    okW.valid = true ∧
    WeatherData.init.valid = false ∧
    (tick 2 WeatherData.init { next_sec := 2, last_fetch := 0, weather := okW }).2 = 1 ∧
    ((tick 2 WeatherData.init { next_sec := 2, last_fetch := 0, weather := okW }).1.next_sec
        - 0 ≥ (2 : Int)) ∧
    (tick 2 okW
        (tick 2 WeatherData.init
          { next_sec := 2, last_fetch := 0, weather := okW }).1).2 = 0 := by
  decide

/-- C8 amended: in every iteration the refresh callback runs at most once,
and exactly when the elapsed time since the last refresh *attempt*
(successful or not — line 472 records the attempt time unconditionally)
reaches or exceeds the configured interval; it runs sequentially inside the
tick. -/
theorem tick_refresh_iff_interval_elapsed (refresh : Int) (f : WeatherData)
    (s : LoopState) :
    (tick refresh f s).2 ≤ 1 ∧
    ((tick refresh f s).2 = 1 ↔ s.next_sec - s.last_fetch ≥ refresh) := by
  unfold tick
  split
  next h => exact ⟨Nat.le_refl 1, iff_of_true rfl h⟩
  next h => exact ⟨by omega, iff_of_false (by omega) h⟩

/-- C10 counterexample: on a 200 response whose body is
`\x7b"weather":[\x7b\x7d]\x7d`, the first weather-array object span is found
(it is `\x7b\x7d`), extraction of `main` inside it is empty, and
`condition_main` is assigned that empty result instead of being left at its
constructor default `Unknown`. -/
theorem condition_main_not_defaulted :
    weatherFirstSpan ("\x7b\"weather\":[\x7b\x7d]\x7d".data) = some ("\x7b\x7d".data) ∧
    extractJsonValue ("\x7b\x7d".data) ("main".data) = [] ∧
    (fetchWeather (fun _ => 0) (fun _ => 0)
        (TransportResult.ok 200 ("\x7b\"weather\":[\x7b\x7d]\x7d".data))).valid = true ∧
    (fetchWeather (fun _ => 0) (fun _ => 0)
        (TransportResult.ok 200 ("\x7b\"weather\":[\x7b\x7d]\x7d".data))).condition_main = [] ∧
    ("Unknown".data : Str) ≠ [] := by
  decide

/-- C10 amended: whenever the transport completes with status 200 the
returned record has `valid = true`, whatever the body; each numeric field
whose extraction is empty is left at its constructor default (0), as is the
timestamp; the condition fields are left at their defaults (`Unknown`, empty)
exactly when the first weather-array object cannot be located, and otherwise
are assigned the — possibly empty — extraction results from that span. -/
theorem fetch200_valid_and_defaults (atof : Str → Rat) (atol : Str → Int)
    (code : Int) (body : Str) (h200 : code = 200) :
    (fetchWeather atof atol (TransportResult.ok code body)).valid = true ∧
    (extractJsonValue body ("main.temp".data) = [] →
      (fetchWeather atof atol (TransportResult.ok code body)).temp = 0) ∧
    (extractJsonValue body ("main.feels_like".data) = [] →
      (fetchWeather atof atol (TransportResult.ok code body)).feels_like = 0) ∧
    (extractJsonValue body ("main.humidity".data) = [] →
      (fetchWeather atof atol (TransportResult.ok code body)).humidity = 0) ∧
    (extractJsonValue body ("wind.speed".data) = [] →
      (fetchWeather atof atol (TransportResult.ok code body)).wind_speed = 0) ∧
    (extractJsonValue body ("dt".data) = [] →
      (fetchWeather atof atol (TransportResult.ok code body)).timestamp = 0) ∧
    (weatherFirstSpan body = none →
      (fetchWeather atof atol (TransportResult.ok code body)).condition_main
          = "Unknown".data ∧
      (fetchWeather atof atol (TransportResult.ok code body)).condition_description
          = []) ∧
    (∀ obj, weatherFirstSpan body = some obj →
      (fetchWeather atof atol (TransportResult.ok code body)).condition_main
          = extractJsonValue obj ("main".data) ∧
      (fetchWeather atof atol (TransportResult.ok code body)).condition_description
          = extractJsonValue obj ("description".data)) := by
  subst h200
  have hfe : fetchWeather atof atol (TransportResult.ok 200 body)
      = assembleWeather atof atol body := by
    simp [fetchWeather]
  rw [hfe]
  refine ⟨rfl, ?_, ?_, ?_, ?_, ?_, ?_, ?_⟩
  · intro he
    simp [assembleWeather, he, WeatherData.init]
  · intro he
    simp [assembleWeather, he, WeatherData.init]
  · intro he
    simp [assembleWeather, he, WeatherData.init]
  · intro he
    simp [assembleWeather, he, WeatherData.init]
  · intro he
    simp [assembleWeather, he, WeatherData.init]
  · intro he
    constructor
    · simp [assembleWeather, he, WeatherData.init]
    · simp [assembleWeather, he, WeatherData.init]
  · intro obj he
    constructor
    · simp [assembleWeather, he]
    · simp [assembleWeather, he]

/-- Witness for the amended C10, at status 200 with an empty body (all
extractions empty, no weather span). -/
theorem fetch200_valid_and_defaults_witness :
    (fetchWeather (fun _ => 0) (fun _ => 0) (TransportResult.ok 200 [])).valid = true :=
  (fetch200_valid_and_defaults (fun _ => 0) (fun _ => 0) 200 [] rfl).1
